import Mathlib

/-!
Verification of the etherscan ingestion pipeline (`src/bin/etherscan.js`)
of `fanatid/ethereum-verified-contracts`.

The JavaScript source is shallowly embedded: network responses, the
contract store and the external collaborators (`contractLoader`,
`blockchain.getTxInfo`, the `compilers-map` and
`etherscan-constructor-arguments` tables) are supplied by an explicit
environment record, and every pure computation of the script (string
munging, regex matches, control flow, assertions, the crawl loop) is
translated function by function.  String operations are implemented over
`List Char` so that every definition evaluates by kernel reduction.
-/

/-- Characters matched by the regex class `[a-z0-9]` used in
`([a-z0-9]+)\.js$` (line 83) and `([a-z0-9]+)$` (line 153). -/
def isLowerAlnum (c : Char) : Bool :=
  (('a' ≤ c) && (c ≤ 'z')) || (('0' ≤ c) && (c ≤ '9'))

/-- Characters matched by the regex class `[0-9a-f]` of
`/^([0-9a-f]+)</` (line 118). -/
def isHexLower (c : Char) : Bool :=
  (('0' ≤ c) && (c ≤ '9')) || (('a' ≤ c) && (c ≤ 'f'))

/-- `String.trim` implemented over the character list (JavaScript
`String.prototype.trim`, restricted to ASCII whitespace). -/
def listTrim (cs : List Char) : List Char :=
  ((cs.dropWhile Char.isWhitespace).reverse.dropWhile Char.isWhitespace).reverse

/-- JavaScript `s.trim()`. -/
def jsTrim (s : String) : String := String.mk (listTrim s.data)

/-- JavaScript `s.toLowerCase()` (ASCII). -/
def jsToLower (s : String) : String := String.mk (s.data.map Char.toLower)

/-- JavaScript `s.slice(0, n)` for `0 ≤ n`. -/
def jsTake (s : String) (n : Nat) : String := String.mk (s.data.take n)

/-- Drop the first `n` characters. -/
def jsDrop (s : String) (n : Nat) : String := String.mk (s.data.drop n)

/-- Drop the last `n` characters. -/
def jsDropRight (s : String) (n : Nat) : String := String.mk (s.data.take (s.data.length - n))

/-- Does `cs` end with `suffix`? -/
def listEndsWith (cs tail : List Char) : Bool :=
  decide (cs.reverse.take tail.length = tail.reverse)

/-- Is `p` a prefix of `s` (as character lists)? -/
def listPrefixB : List Char → List Char → Bool
  | [], _ => true
  | _ :: _, [] => false
  | a :: as, b :: bs => (a == b) && listPrefixB as bs

/-- Does `s` contain `pat` as a contiguous substring?  Implements
JavaScript `String.prototype.includes`. -/
def listContainsSub (pat : List Char) : List Char → Bool
  | [] => pat.isEmpty
  | c :: rest => listPrefixB pat (c :: rest) || listContainsSub pat rest

/-- JavaScript `s.includes(pat)`. -/
def strContains (s pat : String) : Bool := listContainsSub pat.data s.data

/-- Split a character list at every newline (JavaScript
`text.split('\n')`). -/
def splitNl : List Char → List (List Char)
  | [] => [[]]
  | c :: rest =>
    if c = '\n' then [] :: splitNl rest
    else
      match splitNl rest with
      | [] => [[c]]
      | l :: ls => (c :: l) :: ls

/-- JavaScript `text.split('\n')`. -/
def jsSplitLines (text : String) : List String := (splitNl text.data).map String.mk

/-- The maximal run of `[a-z0-9]` characters at the end of `s`:
the capture of `s.match(/([a-z0-9]+)$/)`, `none` when the regex does
not match (final character outside the class, or empty string). -/
def trailingAlnum (s : String) : Option String :=
  let r := s.data.reverse.takeWhile isLowerAlnum
  if r.isEmpty then none else some (String.mk r.reverse)

/-! ## CompilerVersionIndex: `soljsonVersionsLoad` (lines 78–92) -/

/-- The capture of `line.match(/([a-z0-9]+)\.js$/)`: the line must end
in `.js` preceded by at least one `[a-z0-9]` character; the capture is
the maximal such run. -/
def jsMatchSoljson (line : String) : Option String :=
  if listEndsWith line.data ".js".data then
    trailingAlnum (jsDropRight line 3)
  else none

/-- `parsed[1].slice(0, 6)` applied to the soljson line match. -/
def fingerprintOf (line : String) : Option String :=
  (jsMatchSoljson line).map (fun p => jsTake p 6)

/-- `line.trim().slice(9, -3)`: the version string stored in the index. -/
def versionOf (line : String) : String := jsDropRight (jsDrop (jsTrim line) 9) 3

/-- One iteration of the `soljsonVersionsLoad` loop (lines 82–90): skip
non-matching lines; skip lines whose fingerprint is already mapped to a
version containing `"commit"`; otherwise overwrite the entry.
(JavaScript reads `soljsonVersions[commit] && ….includes('commit')`;
an empty stored string never contains `"commit"`, so the truthiness
guard coincides with the `includes` test.) -/
def soljsonStep (m : String → Option String) (line : String) : String → Option String :=
  match jsMatchSoljson line with
  | none => m
  | some parsed =>
    let commit := jsTake parsed 6
    match m commit with
    | some v =>
      if strContains v "commit" then m
      else fun k => if k = commit then some (versionOf line) else m k
    | none => fun k => if k = commit then some (versionOf line) else m k

/-- `soljsonVersionsLoad` applied to the fetched manifest text
(lines 78–92): fold the per-line step over `text.split('\n')`. -/
def soljsonVersionsLoad (text : String) : String → Option String :=
  (jsSplitLines text).foldl soljsonStep (fun _ => none)

/-! ## JavaScript values for `optimise` and `parseInt` -/

/-- The value of the JavaScript expression
`optimizationEnabled && optimizationRuns` (line 109): either the boolean
`false` or the number returned by `parseInt` (possibly `NaN`). -/
inductive JsVal where
  | bool (b : Bool)
  | num (n : Int)
  | nan
deriving DecidableEq

/-- JavaScript truthiness of a `JsVal`. -/
def jsTruthy : JsVal → Bool
  | .bool b => b
  | .num n => n != 0
  | .nan => false

/-- Decimal digit run to a natural number. -/
def digitsToNat (ds : List Char) : Nat :=
  ds.foldl (fun acc c => 10 * acc + (c.toNat - '0'.toNat)) 0

/-- JavaScript `parseInt(s, 10)`: skip leading whitespace, optional
sign, then the maximal digit prefix; `none` models `NaN`. -/
def parseIntJS (s : String) : Option Int :=
  let cs := s.data.dropWhile Char.isWhitespace
  let signAndRest : Int × List Char :=
    match cs with
    | '-' :: r => (-1, r)
    | '+' :: r => (1, r)
    | _ => (1, cs)
  let ds := signAndRest.2.takeWhile Char.isDigit
  if ds.isEmpty then none
  else some (signAndRest.1 * (digitsToNat ds : Int))

/-! ## Data model and environment -/

/-- The raw texts extracted by cheerio from the etherscan address page
(lines 102–116): the environment supplies the `.text()` / `.html()`
results, the model performs the same trims and parses as the script. -/
structure EtherscanPage where
  nameText : String
  compilerText : String
  optimizationEnabledText : String
  optimizationRunsText : String
  srcText : String
  abiText : String
  /-- `$(code.find('pre')[3]).html()`: `none` models a `null` result. -/
  cargsHTML : Option String
deriving DecidableEq

/-- Result of `blockchain.getTxInfo('foundation', txid)`. -/
structure TxInfo where
  address : String
  bin : String
deriving DecidableEq

/-- The environment: external collaborators and network responses,
already decoded to the fields the script reads. -/
structure Env where
  /-- Addresses (raw `<a>` texts) listed on `contractsVerified/{page}`. -/
  pages : Nat → List String
  /-- The number in the `Page X of Y` footer of `contractsVerified/{page}`. -/
  pageCount : Nat → Nat
  /-- The etherscan address page for a (lowercased) address. -/
  ethPage : String → EtherscanPage
  /-- `transaction_hash` of each row of the blockchair `calls` query. -/
  blockchairRows : String → List String
  /-- `blockchain.getTxInfo('foundation', ·)`. -/
  getTxInfo : String → TxInfo
  /-- The `etherscan-constructor-arguments` override table. -/
  etherscanConstructorArguments : String → Option String
  /-- The `compilers-map` fingerprint-alias table. -/
  compilersMap : String → Option String
  /-- Value returned by `contractLoader.save` (false ⇒ lost race). -/
  saveAdded : String → Bool

/-- Errors thrown by the script: failed `assert` calls, and the
`TypeError` raised by indexing a `null` regex match. -/
inductive RunError where
  | assertFail (msg : String)
  | typeError (msg : String)
deriving DecidableEq

/-- Result of `fetchAddressEtherscan` (lines 99–125). -/
structure EthRes where
  name : String
  compiler : String
  optimise : JsVal
  src : String
  abi : String
  cargs : String
deriving DecidableEq

/-- Result of `fetchAddressBlockchair` (lines 127–137). -/
structure BcRes where
  txid : String
  bin : String
deriving DecidableEq

/-- `info` part of the record passed to `contractLoader.save`
(lines 163–172). -/
structure ContractInfo where
  name : String
  entrypoint : String
  compiler : String
  optimise : JsVal
  network : String
  txid : String
  address : String
  constructorArgs : String
deriving DecidableEq

/-- The record passed to `contractLoader.save` (lines 157–173). -/
structure Contract where
  src : List (String × String)
  abi : String
  bin : String
  info : ContractInfo
deriving DecidableEq

/-! ## `fetchAddressEtherscan` (lines 99–125) -/

/-- The capture of `h.match(/^([0-9a-f]+)</)`: the maximal hex prefix
of `h`, provided it is nonempty and immediately followed by `<`. -/
def hexCaptureLt (h : String) : Option String :=
  let p := h.data.takeWhile isHexLower
  if p.isEmpty then none
  else
    match h.data.drop p.length with
    | '<' :: _ => some (String.mk p)
    | _ => none

/-- Lines 115–121: extract the constructor-arguments hex from the
`cargsHTML` cell when it is truthy; a missing match or an odd-length
capture fails the `assert`. -/
def cargsStep : Option String → Except RunError String
  | none => Except.ok ""
  | some h =>
    if h.isEmpty then Except.ok ""
    else
      match hexCaptureLt h with
      | some p =>
        if p.length % 2 = 0 then Except.ok p
        else Except.error (RunError.assertFail "Contructor Arguments is not valid")
      | none => Except.error (RunError.assertFail "Contructor Arguments is not valid")

/-- Line 122: `cargs = cargs || etherscanConstructorArguments[address] || ''`. -/
def cargsFallback (c : String) (o : Option String) : String :=
  if c.isEmpty then
    match o with
    | some s => s
    | none => ""
  else c

/-- `fetchAddressEtherscan(address)` (lines 99–125) over the
environment's page for `address`. -/
def fetchAddressEtherscanM (env : Env) (address : String) : Except RunError EthRes :=
  let pg := env.ethPage address
  let name := jsTrim pg.nameText
  let compiler := jsTrim pg.compilerText
  let optimizationEnabled := jsTrim pg.optimizationEnabledText == "Yes"
  let optimizationRuns := parseIntJS (jsTrim pg.optimizationRunsText)
  let optimise : JsVal :=
    if optimizationEnabled then
      match optimizationRuns with
      | some n => JsVal.num n
      | none => JsVal.nan
    else JsVal.bool false
  let src := jsTrim pg.srcText
  let abi := jsTrim pg.abiText
  match cargsStep pg.cargsHTML with
  | Except.error e => Except.error e
  | Except.ok c0 =>
    let cargs := cargsFallback c0 (env.etherscanConstructorArguments address)
    Except.ok ⟨name, compiler, optimise, src, abi, cargs⟩

/-! ## `fetchAddressBlockchair` (lines 127–137) -/

/-- `fetchAddressBlockchair(address)` (lines 127–137).  The second
component records the `txid`s passed to the ledger lookup
`blockchain.getTxInfo`, in order. -/
def fetchAddressBlockchairM (env : Env) (address : String) :
    Except RunError BcRes × List String :=
  let rows := env.blockchairRows address
  if rows.length = 1 then
    let txid := rows.headD ""
    let txInfo := env.getTxInfo txid
    if txInfo.address == address then (Except.ok ⟨txid, txInfo.bin⟩, [txid])
    else (Except.error (RunError.assertFail "txInfo.address == address"), [txid])
  else
    (Except.error (RunError.assertFail
      ("Expected not more than 1 rows, received: " ++ toString rows.length)), [])

/-! ## `fetchAddress` (lines 139–178) -/

/-- Outcome of one `fetchAddress` call. -/
inductive Outcome where
  | alreadyExists
  | saved (added : Bool)
deriving DecidableEq

/-- State after a successful `fetchAddress` call: whether
`onExistsUpdate` (`process.exit(0)`) was triggered, the store contents,
the records passed to `contractLoader.save` (in call order), and the
outcome. -/
structure AddrRes where
  terminate : Bool
  store : List String
  saves : List Contract
  outcome : Outcome
deriving DecidableEq

/-- Result of `fetchAddress`: normal return, or a thrown error together
with the records saved before the throw. -/
inductive AddrOut where
  | ok (r : AddrRes)
  | err (e : RunError) (saves : List Contract)
deriving DecidableEq

/-- `a || b` on a string and an optional string (JavaScript `||` with
empty-string falsiness), used for
`soljsonVersions[compilerMark] || soljsonVersions[compilersMap[compilerMark]]`. -/
def jsOrOpt (a b : Option String) : Option String :=
  match a with
  | some s => if s.isEmpty then b else some s
  | none => b

/-- `fetchAddress(address, { soljsonVersions, update })` (lines 139–178).
The store is the list of addresses for which
`contractLoader.existsByAddressNetwork(·, 'foundation')` holds; `save`
appends the address and returns `env.saveAdded address`. -/
def fetchAddressM (env : Env) (soljsonVersions : String → Option String)
    (update : Bool) (store : List String) (address0 : String) : AddrOut :=
  let address := jsToLower address0
  if store.contains address then
    if update then AddrOut.ok ⟨true, store, [], Outcome.alreadyExists⟩
    else AddrOut.ok ⟨false, store, [], Outcome.alreadyExists⟩
  else
    match fetchAddressEtherscanM env address with
    | Except.error e => AddrOut.err e []
    | Except.ok etherscan =>
      match (fetchAddressBlockchairM env address).1 with
      | Except.error e => AddrOut.err e []
      | Except.ok blockchair =>
        match trailingAlnum etherscan.compiler with
        | none =>
          AddrOut.err (RunError.typeError "Cannot read properties of null (reading 1)") []
        | some run =>
          let compilerMark := jsTake run 6
          let soljsonVersion :=
            jsOrOpt (soljsonVersions compilerMark)
              ((env.compilersMap compilerMark).bind soljsonVersions)
          match soljsonVersion with
          | none =>
            AddrOut.err (RunError.assertFail
              ("Compiler version should be defined for " ++ address)) []
          | some ver =>
            if ver.isEmpty then
              AddrOut.err (RunError.assertFail
                ("Compiler version should be defined for " ++ address)) []
            else
              let contract : Contract :=
                { src := [(etherscan.name ++ ".sol", etherscan.src)]
                  abi := etherscan.abi
                  bin := blockchair.bin
                  info :=
                    { name := etherscan.name
                      entrypoint := etherscan.name ++ ".sol"
                      compiler := ver
                      optimise := etherscan.optimise
                      network := "foundation"
                      txid := blockchair.txid
                      address := address
                      constructorArgs := etherscan.cargs } }
              let added := env.saveAdded address
              let store' := address :: store
              if !added && update then
                AddrOut.ok ⟨true, store', [contract], Outcome.saved added⟩
              else
                AddrOut.ok ⟨false, store', [contract], Outcome.saved added⟩

/-! ## `fetchPage` / `fetchPages` (lines 180–198) -/

/-- Result of the per-page address loop (line 186). -/
inductive AddrLoopOut where
  | cont (store : List String) (saves : List Contract) (processed : List String)
  | exit0 (saves : List Contract) (processed : List String)
  | failed (e : RunError) (saves : List Contract) (processed : List String)
deriving DecidableEq

/-- `for (const address of addresses) await fetchAddress(address, options)`
(line 186), recording the addresses actually passed to `fetchAddress`. -/
def processAddresses (env : Env) (soljsonVersions : String → Option String)
    (update : Bool) (store : List String) : List String → AddrLoopOut
  | [] => AddrLoopOut.cont store [] []
  | a :: rest =>
    match fetchAddressM env soljsonVersions update store a with
    | AddrOut.err e saves => AddrLoopOut.failed e saves [a]
    | AddrOut.ok r =>
      if r.terminate then AddrLoopOut.exit0 r.saves [a]
      else
        match processAddresses env soljsonVersions update r.store rest with
        | AddrLoopOut.cont st s p => AddrLoopOut.cont st (r.saves ++ s) (a :: p)
        | AddrLoopOut.exit0 s p => AddrLoopOut.exit0 (r.saves ++ s) (a :: p)
        | AddrLoopOut.failed e s p => AddrLoopOut.failed e (r.saves ++ s) (a :: p)

/-- Result of `fetchPage` (lines 180–191); the footer total is only
parsed when the address loop runs to completion. -/
inductive PageOut where
  | cont (store : List String) (saves : List Contract) (processed : List String) (total : Nat)
  | exit0 (saves : List Contract) (processed : List String)
  | failed (e : RunError) (saves : List Contract) (processed : List String)
deriving DecidableEq

/-- `fetchPage(page, options)` (lines 180–191): extract the address
list (trimmed and lowercased), run the address loop, then parse the
`Page X of Y` footer. -/
def fetchPageM (env : Env) (soljsonVersions : String → Option String)
    (update : Bool) (store : List String) (page : Nat) : PageOut :=
  let addresses := (env.pages page).map (fun s => jsToLower (jsTrim s))
  match processAddresses env soljsonVersions update store addresses with
  | AddrLoopOut.cont st saves pr => PageOut.cont st saves pr (env.pageCount page)
  | AddrLoopOut.exit0 s p => PageOut.exit0 s p
  | AddrLoopOut.failed e s p => PageOut.failed e s p

/-- Result of `fetchPages` (lines 193–198): `pagesVisited` is the list
of pages fetched, in fetch order; `fuelOut` is the artifact of the
fuel-bounded embedding of the unbounded `for` loop. -/
inductive CrawlRes where
  | done (store : List String) (saves : List Contract)
      (pagesVisited : List Nat) (processed : List String)
  | exit0 (saves : List Contract) (pagesVisited : List Nat) (processed : List String)
  | failed (e : RunError) (saves : List Contract)
      (pagesVisited : List Nat) (processed : List String)
  | fuelOut
deriving DecidableEq

/-- `up === 'latest' ? total : up` (line 196): the upper bound used by
the loop test, re-resolved from the footer on every page when the bound
is `latest` (modelled as `none`). -/
def resolveUp : Option Nat → Nat → Nat
  | some u, _ => u
  | none, total => total

/-- `fetchPages(down, up, options)` (lines 193–198): `up = none` models
the `'latest'` upper bound, in which case the loop compares the page
index against the footer total of the page just fetched. -/
def fetchPagesM (env : Env) (soljsonVersions : String → Option String)
    (update : Bool) : Nat → Nat → Option Nat → List String → CrawlRes
  | 0, _, _, _ => CrawlRes.fuelOut
  | fuel + 1, page, up, store =>
    match fetchPageM env soljsonVersions update store page with
    | PageOut.exit0 s p => CrawlRes.exit0 s [page] p
    | PageOut.failed e s p => CrawlRes.failed e s [page] p
    | PageOut.cont store' saves pr total =>
      if resolveUp up total ≤ page then
        CrawlRes.done store' saves [page] pr
      else
        match fetchPagesM env soljsonVersions update fuel (page + 1) up store' with
        | CrawlRes.done st s2 pv pr2 => CrawlRes.done st (saves ++ s2) (page :: pv) (pr ++ pr2)
        | CrawlRes.exit0 s2 pv pr2 => CrawlRes.exit0 (saves ++ s2) (page :: pv) (pr ++ pr2)
        | CrawlRes.failed e s2 pv pr2 =>
          CrawlRes.failed e (saves ++ s2) (page :: pv) (pr ++ pr2)
        | CrawlRes.fuelOut => CrawlRes.fuelOut

/-- Process exit code of a finished run (lines 96, 210–213): early stop
via `onExistsUpdate` and normal completion exit 0, an uncaught error
exits 1.  (`fuelOut` corresponds to a run that has not finished.) -/
def exitCode : CrawlRes → Nat
  | CrawlRes.done _ _ _ _ => 0
  | CrawlRes.exit0 _ _ _ => 0
  | CrawlRes.failed _ _ _ _ => 1
  | CrawlRes.fuelOut => 1

/-! ## Rate limiter (lines 52–76) -/

/-- One pass through the keyed closure of `fetchText` (lines 65–72):
given the completion time `last` of the previous call under the key and
the time `now` at which this call starts processing, sleep
`1000 - (now - last)` milliseconds (a negative sleep fires immediately),
issue the request, and complete `dur` milliseconds later.  Returns
(request start time, completion time). -/
def rateStep (last now dur : Nat) : Nat × Nat :=
  let sleep : Int := 1000 - ((now : Int) - (last : Int))
  let start := now + sleep.toNat
  (start, start + dur)

/-- The serialized schedule of the calls queued under one rate-limit
key (`makeConcurrent(…, { concurrency: 1 })`, lines 63–74): each list
entry `(delay, dur)` is a call that begins processing `delay`
milliseconds after the previous call completed (after the epoch for the
first: the source initialises `last = 0`) and whose request takes `dur`
milliseconds.  Returns each call's (request start, completion) times in
issue order. -/
def rateRun (last : Nat) : List (Nat × Nat) → List (Nat × Nat)
  | [] => []
  | (delay, dur) :: rest =>
    let now := last + delay
    let sc := rateStep last now dur
    sc :: rateRun sc.2 rest

/-! ## Claim C1: fingerprint deduplication in `soljsonVersionsLoad` -/

/-- The effect of one manifest line on the index entry of its own
fingerprint: keep a stored version containing `"commit"`, otherwise
overwrite. -/
def stepK (cur : Option String) (v : String) : Option String :=
  match cur with
  | some c => if strContains c "commit" then cur else some v
  | none => some v

theorem soljsonStep_key (m : String → Option String) (line fp : String) :
    soljsonStep m line fp =
      if fingerprintOf line = some fp then stepK (m fp) (versionOf line) else m fp := by
  unfold soljsonStep fingerprintOf
  cases hm : jsMatchSoljson line with
  | none => simp
  | some parsed =>
    simp only [Option.map_some', Option.some.injEq]
    cases hc : m (jsTake parsed 6) with
    | none =>
      by_cases hfp : jsTake parsed 6 = fp
      · subst hfp; simp [stepK, hc]
      · have hfp2 : fp ≠ jsTake parsed 6 := fun h => hfp h.symm
        simp [stepK, hfp, hfp2, hc]
    | some v =>
      by_cases hcc : strContains v "commit" = true
      · by_cases hfp : jsTake parsed 6 = fp
        · subst hfp; simp [stepK, hc, hcc]
        · have hfp2 : fp ≠ jsTake parsed 6 := fun h => hfp h.symm
          simp [stepK, hfp, hfp2, hc, hcc]
      · by_cases hfp : jsTake parsed 6 = fp
        · subst hfp; simp [stepK, hc, hcc]
        · have hfp2 : fp ≠ jsTake parsed 6 := fun h => hfp h.symm
          simp [stepK, hfp, hfp2, hc, hcc]

theorem soljson_foldl_key (ls : List String) (m : String → Option String) (fp : String) :
    (ls.foldl soljsonStep m) fp =
      ((ls.filter (fun l => decide (fingerprintOf l = some fp))).map versionOf).foldl
        stepK (m fp) := by
  induction ls generalizing m with
  | nil => rfl
  | cons l rest ih =>
    simp only [List.foldl_cons, List.filter_cons]
    rw [ih, soljsonStep_key]
    by_cases h : fingerprintOf l = some fp
    · simp [h]
    · simp [h]

/-- Claim C1: if exactly two lines of the manifest yield fingerprint
`fp`, one whose stored (trimmed, prefix/suffix-stripped) version string
contains `"commit"` and one whose does not, then the index built by
`soljsonVersionsLoad` maps `fp` to the commit-bearing version string,
in either input order. -/
theorem soljson_commit_dedup (text fp l1 l2 : String)
    (horder :
      (jsSplitLines text).filter (fun l => decide (fingerprintOf l = some fp)) = [l1, l2] ∨
      (jsSplitLines text).filter (fun l => decide (fingerprintOf l = some fp)) = [l2, l1])
    (h1 : strContains (versionOf l1) "commit" = true)
    (h2 : strContains (versionOf l2) "commit" = false) :
    soljsonVersionsLoad text fp = some (versionOf l1) := by
  unfold soljsonVersionsLoad
  rw [soljson_foldl_key]
  rcases horder with h | h <;> rw [h] <;>
    simp [stepK, h1, h2]

/-- Witness for C1: a two-line manifest carrying fingerprint `abc123`
once with and once without a `commit` marker, checked in both orders. -/
theorem soljson_commit_dedup_witness :
    soljsonVersionsLoad
      "soljson-v0.1.1+commit.abc123.js\nsoljson-v0.1.2-nightly.abc123.js"
      "abc123" = some "0.1.1+commit.abc123" ∧
    soljsonVersionsLoad
      "soljson-v0.1.2-nightly.abc123.js\nsoljson-v0.1.1+commit.abc123.js"
      "abc123" = some "0.1.1+commit.abc123" := by
  constructor
  · have h := soljson_commit_dedup
      "soljson-v0.1.1+commit.abc123.js\nsoljson-v0.1.2-nightly.abc123.js"
      "abc123" "soljson-v0.1.1+commit.abc123.js" "soljson-v0.1.2-nightly.abc123.js"
      (Or.inl (by decide)) (by decide) (by decide)
    rw [h]; decide
  · have h := soljson_commit_dedup
      "soljson-v0.1.2-nightly.abc123.js\nsoljson-v0.1.1+commit.abc123.js"
      "abc123" "soljson-v0.1.1+commit.abc123.js" "soljson-v0.1.2-nightly.abc123.js"
      (Or.inr (by decide)) (by decide) (by decide)
    rw [h]; decide

/-! ## Claim C9: rate-limiter spacing -/

theorem rateStep_eq (last delay dur : Nat) :
    rateStep last (last + delay) dur =
      (last + max 1000 delay, last + max 1000 delay + dur) := by
  unfold rateStep
  have h : ((1000 : Int) - (((last + delay : Nat) : Int) - (last : Nat))).toNat =
      max 1000 delay - delay := by
    push_cast
    omega
  simp only [h]
  have hmax : max 1000 delay - delay + delay = max 1000 delay := by omega
  rw [Prod.mk.injEq]
  constructor <;> omega

/-- Claim C9: under one rate-limit key the queued calls are scheduled
one at a time in issue order (one trace entry per call, each request
starting no earlier than the previous completion), every call starts at
least 1000 ms after the completion of the previous call under the key
(1000 ms is the interval hard-coded at line 66), and no call starts
before `last + 1000` where `last` is the completion timestamp recorded
before the batch. -/
theorem rateRun_spacing (last : Nat) (calls : List (Nat × Nat)) :
    (rateRun last calls).length = calls.length ∧
    (∀ sc ∈ rateRun last calls, last + 1000 ≤ sc.1 ∧ sc.1 ≤ sc.2) ∧
    List.Chain' (fun a b => a.2 + 1000 ≤ b.1) (rateRun last calls) := by
  induction calls generalizing last with
  | nil => simp [rateRun]
  | cons c rest ih =>
    obtain ⟨delay, dur⟩ := c
    have hrun : rateRun last ((delay, dur) :: rest) =
        (last + max 1000 delay, last + max 1000 delay + dur) ::
          rateRun (last + max 1000 delay + dur) rest := by
      show (rateStep last (last + delay) dur) ::
          rateRun (rateStep last (last + delay) dur).2 rest = _
      rw [rateStep_eq]
    rw [hrun]
    obtain ⟨ihlen, ihmem, ihchain⟩ := ih (last + max 1000 delay + dur)
    refine ⟨by simp [ihlen], ?_, ?_⟩
    · intro sc hsc
      rcases List.mem_cons.mp hsc with h | h
      · subst h
        constructor
        · have : 1000 ≤ max 1000 delay := Nat.le_max_left 1000 delay
          omega
        · omega
      · have := ihmem sc h
        omega
    · rw [List.chain'_cons']
      refine ⟨?_, ihchain⟩
      intro y hy
      have := ihmem y (List.mem_of_mem_head? hy)
      omega

/-! ## Claim C4: idempotent ingestion in non-update mode -/

/-- Claim C4: in non-update mode, a first successful ingestion of an
address not yet in the store performs exactly one `save` call, does not
terminate the run, and extends the store with the lowercased address;
re-ingesting the same address then hits the existence check and — for
every environment and version index, i.e. without consulting either
external source or calling `save` — reports `AlreadyExists`, performs
no save, and does not terminate. -/
theorem ingest_idempotent (env : Env) (sv : String → Option String)
    (store : List String) (a : String) (r : AddrRes)
    (hnot : jsToLower a ∉ store)
    (hok : fetchAddressM env sv false store a = AddrOut.ok r) :
    r.saves.length = 1 ∧ r.terminate = false ∧ r.store = jsToLower a :: store ∧
    (∀ env2 : Env, ∀ sv2 : String → Option String,
      fetchAddressM env2 sv2 false r.store a =
        AddrOut.ok ⟨false, r.store, [], Outcome.alreadyExists⟩) := by
  have hc : store.contains (jsToLower a) = false := by simpa using hnot
  simp only [fetchAddressM, hc, Bool.false_eq_true, if_false] at hok
  have hmain : r.saves.length = 1 ∧ r.terminate = false ∧
      r.store = jsToLower a :: store := by
    split at hok
    · cases hok
    · split at hok
      · cases hok
      · split at hok
        · cases hok
        · split at hok
          · cases hok
          · split at hok
            · cases hok
            · split at hok
              · simp_all
              · cases hok
                exact ⟨rfl, rfl, rfl⟩
  refine ⟨hmain.1, hmain.2.1, hmain.2.2, ?_⟩
  intro env2 sv2
  have hc2 : (r.store).contains (jsToLower a) = true := by
    rw [hmain.2.2]; simp
  simp only [fetchAddressM, hc2, if_true, Bool.false_eq_true, if_false]

/-! ## Concrete test fixtures shared by the witnesses -/

/-- A well-formed etherscan address page used by the witnesses. -/
def pgT : EtherscanPage :=
  { nameText := " Token "
    compilerText := "v0.4.19+commit.c4cbbb05"
    optimizationEnabledText := "Yes"
    optimizationRunsText := "200"
    srcText := "contract Token {}"
    abiText := "[]"
    cargsHTML := none }

/-- A well-formed environment: every address resolves, the creation
transaction round-trips through the ledger lookup, and `save` wins. -/
def envT : Env :=
  { pages := fun p => if p = 1 then ["0xBB", "0xAA", "0xCC"] else []
    pageCount := fun _ => 2
    ethPage := fun _ => pgT
    blockchairRows := fun a => [a]
    getTxInfo := fun t => ⟨t, "6060"⟩
    etherscanConstructorArguments := fun _ => none
    compilersMap := fun _ => none
    saveAdded := fun _ => true }

/-- A version index resolving the fingerprint of `pgT`'s compiler. -/
def svT : String → Option String :=
  fun m => if m = "c4cbbb" then some "v0.4.19+commit.c4cbbb05" else none

/-- The record `envT`/`svT` ingestion assembles for any address page. -/
def contractT : Contract :=
  { src := [("Token.sol", "contract Token {}")]
    abi := "[]"
    bin := "6060"
    info :=
      { name := "Token"
        entrypoint := "Token.sol"
        compiler := "v0.4.19+commit.c4cbbb05"
        optimise := JsVal.num 200
        network := "foundation"
        txid := "0xab"
        address := "0xab"
        constructorArgs := "" } }

/-- Result of the first ingestion of `0xAB` under `envT`. -/
def addrResT : AddrRes := ⟨false, ["0xab"], [contractT], Outcome.saved true⟩

/-- Witness for C4: ingesting `0xAB` twice into an empty store under a
concrete environment. -/
theorem ingest_idempotent_witness :
    jsToLower "0xAB" ∉ ([] : List String) ∧
    fetchAddressM envT svT false [] "0xAB" = AddrOut.ok addrResT ∧
    addrResT.saves.length = 1 ∧ addrResT.terminate = false ∧
    fetchAddressM envT svT false addrResT.store "0xAB" =
      AddrOut.ok ⟨false, addrResT.store, [], Outcome.alreadyExists⟩ := by
  have h1 : jsToLower "0xAB" ∉ ([] : List String) := by simp
  have h2 : fetchAddressM envT svT false [] "0xAB" = AddrOut.ok addrResT := by decide
  have h := ingest_idempotent envT svT [] "0xAB" addrResT h1 h2
  exact ⟨h1, h2, h.1, h.2.1, h.2.2.2 envT svT⟩

/-! ## Claim C5: cross-source address mismatch is fatal, no save -/

/-- Claim C5: when the ledger lookup for the creation transaction
returns an address different from the requested (lowercased) address,
`fetchAddress` fails with the `assert.equal(txInfo.address, address)`
error and `contractLoader.save` is never called. -/
theorem mismatch_rejected (env : Env) (sv : String → Option String)
    (update : Bool) (store : List String) (a : String) (eth : EthRes)
    (hnot : jsToLower a ∉ store)
    (heth : fetchAddressEtherscanM env (jsToLower a) = Except.ok eth)
    (hrows : (env.blockchairRows (jsToLower a)).length = 1)
    (hmm : (env.getTxInfo ((env.blockchairRows (jsToLower a)).headD "")).address ≠
      jsToLower a) :
    fetchAddressM env sv update store a =
      AddrOut.err (RunError.assertFail "txInfo.address == address") [] := by
  have hc : store.contains (jsToLower a) = false := by simpa using hnot
  have hmm2 := hmm
  rw [List.headD_eq_head?] at hmm2
  have hbc : (fetchAddressBlockchairM env (jsToLower a)).1 =
      Except.error (RunError.assertFail "txInfo.address == address") := by
    unfold fetchAddressBlockchairM
    simp [hrows, hmm2]
  simp only [fetchAddressM, hc, Bool.false_eq_true, if_false, heth, hbc]

/-- Environment whose ledger lookup reports a different address. -/
def envMismatch : Env := { envT with getTxInfo := fun _ => ⟨"0xcc", "6060"⟩ }

/-- Witness for C5: the ledger lookup answers `0xcc` for the creation
transaction of `0xBB`, so ingestion fails with no save. -/
theorem mismatch_rejected_witness :
    fetchAddressM envMismatch svT false [] "0xBB" =
      AddrOut.err (RunError.assertFail "txInfo.address == address") [] := by
  exact mismatch_rejected envMismatch svT false [] "0xBB"
    ⟨"Token", "v0.4.19+commit.c4cbbb05", JsVal.num 200, "contract Token {}", "[]", ""⟩
    (by simp) (by rfl) (by decide) (by decide)

/-! ## Claim C6: blockchair row cardinality -/

/-- Claim C6: the blockchair step fails on any row count other than
exactly one, in which case the ledger lookup is never invoked; the
ledger lookup is invoked only when the row count is exactly one; and a
bad row count makes the whole ingestion fail with no save call. -/
theorem blockchair_row_cardinality (env : Env) (sv : String → Option String)
    (update : Bool) (store : List String) (a : String) :
    ((env.blockchairRows a).length ≠ 1 →
      fetchAddressBlockchairM env a =
        (Except.error (RunError.assertFail
          ("Expected not more than 1 rows, received: " ++
            toString (env.blockchairRows a).length)), [])) ∧
    ((fetchAddressBlockchairM env a).2 ≠ [] → (env.blockchairRows a).length = 1) ∧
    ((env.blockchairRows (jsToLower a)).length ≠ 1 → jsToLower a ∉ store →
      ∃ e, fetchAddressM env sv update store a = AddrOut.err e []) := by
  refine ⟨?_, ?_, ?_⟩
  · intro hlen
    unfold fetchAddressBlockchairM
    simp [hlen]
  · intro hcalls
    by_cases hlen : (env.blockchairRows a).length = 1
    · exact hlen
    · exfalso
      apply hcalls
      unfold fetchAddressBlockchairM
      simp [hlen]
  · intro hlen hnot
    have hc : store.contains (jsToLower a) = false := by simpa using hnot
    have hbc : (fetchAddressBlockchairM env (jsToLower a)).1 =
        Except.error (RunError.assertFail
          ("Expected not more than 1 rows, received: " ++
            toString (env.blockchairRows (jsToLower a)).length)) := by
      unfold fetchAddressBlockchairM
      simp [hlen]
    cases heth : fetchAddressEtherscanM env (jsToLower a) with
    | error e =>
      exact ⟨e, by simp only [fetchAddressM, hc, Bool.false_eq_true, if_false, heth]⟩
    | ok eth =>
      refine ⟨RunError.assertFail
        ("Expected not more than 1 rows, received: " ++
          toString (env.blockchairRows (jsToLower a)).length), ?_⟩
      simp only [fetchAddressM, hc, Bool.false_eq_true, if_false, heth, hbc]

/-- Environment whose blockchair query returns no rows. -/
def envNoRows : Env := { envT with blockchairRows := fun _ => [] }

/-- Witness for C6: a zero-row blockchair result fails the row-count
assertion, performs no ledger lookup and no save. -/
theorem blockchair_row_cardinality_witness :
    (envNoRows.blockchairRows "0xbb").length ≠ 1 ∧
    fetchAddressBlockchairM envNoRows "0xbb" =
      (Except.error (RunError.assertFail "Expected not more than 1 rows, received: 0"), []) ∧
    (fetchAddressBlockchairM envT "0xbb").2 ≠ [] ∧
    (envT.blockchairRows "0xbb").length = 1 := by
  have h := blockchair_row_cardinality envNoRows svT false [] "0xbb"
  have h2 := blockchair_row_cardinality envT svT false [] "0xbb"
  refine ⟨by decide, ?_, by decide, h2.2.1 (by decide)⟩
  have := h.1 (by decide)
  simpa using this

/-! ## Shared facts about the assembled record -/

theorem takeWhile_all_true {α : Type} (f : α → Bool) (l : List α) :
    (l.takeWhile f).all f = true := by
  rw [List.all_eq_true]
  intro x hx
  exact List.mem_takeWhile_imp hx

theorem hexCaptureLt_spec (h p : String) (hc : hexCaptureLt h = some p) :
    p ≠ "" ∧ p.data.all isHexLower = true := by
  simp only [hexCaptureLt] at hc
  by_cases hemp : (h.data.takeWhile isHexLower).isEmpty = true
  · rw [if_pos hemp] at hc
    cases hc
  · rw [if_neg hemp] at hc
    split at hc
    · cases hc
      refine ⟨?_, takeWhile_all_true isHexLower h.data⟩
      intro hcontra
      apply hemp
      have hdt : h.data.takeWhile isHexLower = [] := congrArg String.data hcontra
      rw [hdt]
      rfl
    · cases hc

/-- If `fetchAddress` succeeded with exactly one saved record, that
record's `optimise` and `constructor` fields are copied from the
etherscan extraction. -/
theorem saved_record_fields (env : Env) (sv : String → Option String)
    (update : Bool) (store : List String) (a : String) (r : AddrRes) (c : Contract)
    (hok : fetchAddressM env sv update store a = AddrOut.ok r)
    (hsaves : r.saves = [c]) :
    ∃ eth, fetchAddressEtherscanM env (jsToLower a) = Except.ok eth ∧
      c.info.optimise = eth.optimise ∧ c.info.constructorArgs = eth.cargs := by
  by_cases hcon : store.contains (jsToLower a) = true
  · simp only [fetchAddressM, hcon, if_true] at hok
    split at hok <;> (cases hok; simp at hsaves)
  · have hcf : store.contains (jsToLower a) = false := by
      simpa using hcon
    simp only [fetchAddressM, hcf, Bool.false_eq_true, if_false] at hok
    cases heth : fetchAddressEtherscanM env (jsToLower a) with
    | error e => simp [heth] at hok
    | ok eth =>
      simp only [heth] at hok
      cases hbc : (fetchAddressBlockchairM env (jsToLower a)).1 with
      | error e => simp [hbc] at hok
      | ok bc =>
        simp only [hbc] at hok
        cases htr : trailingAlnum eth.compiler with
        | none => simp [htr] at hok
        | some run =>
          simp only [htr] at hok
          cases hver : jsOrOpt (sv (jsTake run 6))
              ((env.compilersMap (jsTake run 6)).bind sv) with
          | none => simp [hver] at hok
          | some ver =>
            simp only [hver] at hok
            by_cases hve : ver.isEmpty = true
            · rw [if_pos hve] at hok
              cases hok
            · rw [if_neg hve] at hok
              split at hok <;>
                (cases hok
                 simp only [List.cons.injEq, and_true] at hsaves
                 subst hsaves
                 exact ⟨eth, rfl, rfl, rfl⟩)

/-- The `optimise` value computed by the etherscan extraction
(lines 107–109). -/
theorem fetchEth_optimise (env : Env) (a : String) (eth : EthRes)
    (heth : fetchAddressEtherscanM env a = Except.ok eth) :
    eth.optimise =
      (if jsTrim (env.ethPage a).optimizationEnabledText == "Yes" then
        (match parseIntJS (jsTrim (env.ethPage a).optimizationRunsText) with
         | some n => JsVal.num n
         | none => JsVal.nan)
      else JsVal.bool false) := by
  simp only [fetchAddressEtherscanM] at heth
  split at heth
  · cases heth
  · cases heth
    rfl

/-- The `cargs` value computed by the etherscan extraction
(lines 115–122). -/
theorem fetchEth_cargs (env : Env) (a : String) (eth : EthRes) (c0 : String)
    (heth : fetchAddressEtherscanM env a = Except.ok eth)
    (hstep : cargsStep (env.ethPage a).cargsHTML = Except.ok c0) :
    eth.cargs = cargsFallback c0 (env.etherscanConstructorArguments a) := by
  simp only [fetchAddressEtherscanM] at heth
  split at heth
  · cases heth
  · cases heth
    rename_i c1 hstep1
    rw [hstep1] at hstep
    cases hstep
    rfl

/-! ## Claim C7: the constructor-arguments field -/

/-- Claim C7: when the address page carries a truthy
constructor-arguments cell, it must start with a nonempty even-length
lowercase-hex run followed by `<` — otherwise the `assert` fails — and
on success the extracted `cargs` equals that hex run; when the cell is
absent (or empty, hence falsy), `cargs` is the override-table entry for
the address when one exists and the empty string otherwise; the saved
record's `constructor` field is always the extracted `cargs`. -/
theorem constructor_args_field (env : Env) (a h p : String) :
    ((env.ethPage a).cargsHTML = some h → h ≠ "" → hexCaptureLt h = none →
      fetchAddressEtherscanM env a =
        Except.error (RunError.assertFail "Contructor Arguments is not valid")) ∧
    ((env.ethPage a).cargsHTML = some h → h ≠ "" → hexCaptureLt h = some p →
      p.length % 2 = 1 →
      fetchAddressEtherscanM env a =
        Except.error (RunError.assertFail "Contructor Arguments is not valid")) ∧
    ((env.ethPage a).cargsHTML = some h → h ≠ "" → hexCaptureLt h = some p →
      p.length % 2 = 0 →
      ∃ eth, fetchAddressEtherscanM env a = Except.ok eth ∧ eth.cargs = p ∧
        p ≠ "" ∧ p.data.all isHexLower = true) ∧
    (((env.ethPage a).cargsHTML = none ∨ (env.ethPage a).cargsHTML = some "") →
      ∃ eth, fetchAddressEtherscanM env a = Except.ok eth ∧
        eth.cargs = (match env.etherscanConstructorArguments a with
                     | some s => s
                     | none => "")) ∧
    (∀ sv : String → Option String, ∀ update : Bool, ∀ store : List String,
      ∀ r : AddrRes, ∀ c : Contract, ∀ eth2 : EthRes,
      fetchAddressEtherscanM env (jsToLower a) = Except.ok eth2 →
      fetchAddressM env sv update store a = AddrOut.ok r →
      r.saves = [c] → c.info.constructorArgs = eth2.cargs) := by
  refine ⟨?_, ?_, ?_, ?_, ?_⟩
  · intro hhtml hne hcap
    have hemp : h.isEmpty = false := by
      cases hie : h.isEmpty
      · rfl
      · exact absurd ((String.isEmpty_iff h).mp hie) hne
    have hcs : cargsStep (some h) =
        Except.error (RunError.assertFail "Contructor Arguments is not valid") := by
      unfold cargsStep
      simp [hemp, hcap]
    simp only [fetchAddressEtherscanM, hhtml, hcs]
  · intro hhtml hne hcap hodd
    have hemp : h.isEmpty = false := by
      cases hie : h.isEmpty
      · rfl
      · exact absurd ((String.isEmpty_iff h).mp hie) hne
    have hcs : cargsStep (some h) =
        Except.error (RunError.assertFail "Contructor Arguments is not valid") := by
      unfold cargsStep
      simp [hemp, hcap, hodd]
    simp only [fetchAddressEtherscanM, hhtml, hcs]
  · intro hhtml hne hcap heven
    have hemp : h.isEmpty = false := by
      cases hie : h.isEmpty
      · rfl
      · exact absurd ((String.isEmpty_iff h).mp hie) hne
    obtain ⟨hpne, hphex⟩ := hexCaptureLt_spec h p hcap
    have hpemp : p.isEmpty = false := by
      cases hie : p.isEmpty
      · rfl
      · exact absurd ((String.isEmpty_iff p).mp hie) hpne
    have hcs : cargsStep (some h) = Except.ok p := by
      unfold cargsStep
      simp [hemp, hcap, heven]
    cases hres : fetchAddressEtherscanM env a with
    | error e =>
      simp only [fetchAddressEtherscanM, hhtml, hcs] at hres
      exact Except.noConfusion hres
    | ok eth =>
      refine ⟨eth, rfl, ?_, hpne, hphex⟩
      have hcg := fetchEth_cargs env a eth p hres (by rw [hhtml]; exact hcs)
      rw [hcg]
      unfold cargsFallback
      simp [hpemp]
  · intro hhtml
    have hcs : cargsStep (env.ethPage a).cargsHTML = Except.ok "" := by
      rcases hhtml with hh | hh <;> rw [hh] <;> rfl
    cases hres : fetchAddressEtherscanM env a with
    | error e =>
      simp only [fetchAddressEtherscanM, hcs] at hres
      exact Except.noConfusion hres
    | ok eth =>
      refine ⟨eth, rfl, ?_⟩
      have hcg := fetchEth_cargs env a eth "" hres hcs
      rw [hcg]
      rfl
  · intro sv update store r c eth2 heth2 hok hsaves
    obtain ⟨eth', heth', _, hcargs⟩ :=
      saved_record_fields env sv update store a r c hok hsaves
    have : eth' = eth2 := by
      have := heth'.symm.trans heth2
      exact Except.ok.inj this
    rw [hcargs, this]

/-- Environment with no constructor-arguments cell and an override
table entry `0xdd → "aa01"`. -/
def envC7 : Env :=
  { envT with
    etherscanConstructorArguments := fun a => if a = "0xdd" then some "aa01" else none }

/-- Environment whose constructor-arguments cell holds `ab01<div>`. -/
def envC7b : Env :=
  { envT with ethPage := fun _ => { pgT with cargsHTML := some "ab01<div>" } }

/-- The extraction results expected in the C7 witness. -/
def ethC7 : EthRes :=
  ⟨"Token", "v0.4.19+commit.c4cbbb05", JsVal.num 200, "contract Token {}", "[]", "aa01"⟩

/-- As `ethC7` but with the hex taken from the document cell. -/
def ethC7b : EthRes :=
  ⟨"Token", "v0.4.19+commit.c4cbbb05", JsVal.num 200, "contract Token {}", "[]", "ab01"⟩

/-- Witness for C7: the override fallback fills `cargs` with `aa01`
when the cell is absent, and a document cell `ab01<div>` yields
`cargs = ab01`. -/
theorem constructor_args_field_witness :
    fetchAddressEtherscanM envC7 "0xdd" = Except.ok ethC7 ∧ ethC7.cargs = "aa01" ∧
    fetchAddressEtherscanM envC7b "0xee" = Except.ok ethC7b ∧ ethC7b.cargs = "ab01" := by
  have hconc : fetchAddressEtherscanM envC7 "0xdd" = Except.ok ethC7 := by
    obtain ⟨eth, hres, hcargs⟩ :=
      (constructor_args_field envC7 "0xdd" "x" "x").2.2.2.1 (Or.inl rfl)
    rw [hres]
    have : eth.cargs = "aa01" := hcargs
    cases hre2 : eth
    rw [hre2] at hres this
    rw [hre2] at hcargs
    have hok : fetchAddressEtherscanM envC7 "0xdd" = Except.ok ethC7 := by rfl
    rw [hres] at hok
    exact hok.symm ▸ rfl
  have hconc2 : fetchAddressEtherscanM envC7b "0xee" = Except.ok ethC7b := by
    obtain ⟨eth, hres, hcargs, _, _⟩ :=
      (constructor_args_field envC7b "0xee" "ab01<div>" "ab01").2.2.1
        rfl (by decide) (by rfl) (by decide)
    have hok : fetchAddressEtherscanM envC7b "0xee" = Except.ok ethC7b := by rfl
    exact hok
  exact ⟨hconc, rfl, hconc2, rfl⟩

/-! ## Claim C8: the `optimise` field (corrected) -/

/-- Claim C8 (amended): the saved record's `optimise` field is truthy
exactly when the optimization flag reads `Yes` and the parsed run count
is a nonzero number; it is the boolean `false` when the flag is not
`Yes`, and the (possibly zero, possibly `NaN`) parsed run count when it
is — so it is a number, not a boolean, whenever optimization is
enabled. -/
theorem optimise_field (env : Env) (sv : String → Option String)
    (update : Bool) (store : List String) (a : String) (r : AddrRes) (c : Contract)
    (hok : fetchAddressM env sv update store a = AddrOut.ok r)
    (hsaves : r.saves = [c]) :
    (jsTruthy c.info.optimise = true ↔
      (jsTrim (env.ethPage (jsToLower a)).optimizationEnabledText = "Yes" ∧
       ∃ n : Int,
         parseIntJS (jsTrim (env.ethPage (jsToLower a)).optimizationRunsText) = some n ∧
         n ≠ 0)) ∧
    (jsTrim (env.ethPage (jsToLower a)).optimizationEnabledText ≠ "Yes" →
      c.info.optimise = JsVal.bool false) ∧
    (jsTrim (env.ethPage (jsToLower a)).optimizationEnabledText = "Yes" →
      c.info.optimise =
        (match parseIntJS (jsTrim (env.ethPage (jsToLower a)).optimizationRunsText) with
         | some n => JsVal.num n
         | none => JsVal.nan)) := by
  obtain ⟨eth, heth, hopt, _⟩ := saved_record_fields env sv update store a r c hok hsaves
  have hchar := fetchEth_optimise env (jsToLower a) eth heth
  rw [hopt, hchar]
  by_cases hyes : jsTrim (env.ethPage (jsToLower a)).optimizationEnabledText = "Yes"
  · have hb : (jsTrim (env.ethPage (jsToLower a)).optimizationEnabledText == "Yes") = true := by
      simp [hyes]
    simp only [hb, if_true]
    cases hp : parseIntJS (jsTrim (env.ethPage (jsToLower a)).optimizationRunsText) with
    | none =>
      refine ⟨?_, ?_, ?_⟩
      · simp [jsTruthy, hp]
      · intro hcontra
        exact absurd hyes hcontra
      · intro hdummy
        trivial
    | some n =>
      refine ⟨?_, ?_, ?_⟩
      · simp only [jsTruthy, hyes, true_and, bne_iff_ne, ne_eq]
        constructor
        · intro hne
          exact ⟨n, rfl, hne⟩
        · rintro ⟨m, hm, hmne⟩
          cases Option.some.inj hm
          exact hmne
      · intro hcontra
        exact absurd hyes hcontra
      · intro hdummy
        trivial
  · have hb : (jsTrim (env.ethPage (jsToLower a)).optimizationEnabledText == "Yes") = false := by
      simp [hyes]
    simp only [hb, Bool.false_eq_true, if_false]
    refine ⟨?_, ?_, ?_⟩
    · simp [jsTruthy, hyes]
    · intro hdummy
      trivial
    · intro hcontra
      exact absurd hcontra hyes

/-- Counterexample to C8 as stated: under `envT` the optimization flag
is `Yes` with run count `200`, and the stored record's `optimise` field
is the number `200` — not a boolean at all (in particular not
`JsVal.bool true`), refuting "the optimise field is a boolean". -/
theorem optimise_field_counterexample :
    fetchAddressM envT svT false [] "0xAB" = AddrOut.ok addrResT ∧
    addrResT.saves = [contractT] ∧
    jsTrim (envT.ethPage "0xab").optimizationEnabledText = "Yes" ∧
    parseIntJS (jsTrim (envT.ethPage "0xab").optimizationRunsText) = some 200 ∧
    contractT.info.optimise = JsVal.num 200 ∧
    JsVal.num 200 ≠ JsVal.bool true ∧ JsVal.num 200 ≠ JsVal.bool false := by
  refine ⟨by decide, rfl, by decide, by decide, rfl, by decide, by decide⟩

/-! ## Claim C10: compiler strings not ending in `[a-z0-9]` -/

/-- Claim C10: when the (trimmed) compiler identifier does not end in a
character of `[a-z0-9]` — uppercase final letter, or empty — line 153
indexes the `null` result of `compiler.match(/([a-z0-9]+)$/)` and
throws a `TypeError` (not an assertion failure), for every version
index and every fingerprint-alias table, i.e. before either is
consulted; no save is performed. -/
theorem compiler_regex_typeerror (env : Env) (store : List String) (a : String)
    (eth : EthRes) (bc : BcRes)
    (hnot : jsToLower a ∉ store)
    (heth : fetchAddressEtherscanM env (jsToLower a) = Except.ok eth)
    (hbc : (fetchAddressBlockchairM env (jsToLower a)).1 = Except.ok bc)
    (hlast : eth.compiler.data.getLast? = none ∨
      ∃ ch, eth.compiler.data.getLast? = some ch ∧ isLowerAlnum ch = false) :
    ∀ sv cm : String → Option String, ∀ update : Bool,
      fetchAddressM { env with compilersMap := cm } sv update store a =
        AddrOut.err (RunError.typeError "Cannot read properties of null (reading 1)") [] := by
  intro sv cm update
  have hta : trailingAlnum eth.compiler = none := by
    simp only [trailingAlnum]
    cases hr : eth.compiler.data.reverse with
    | nil => simp
    | cons ch t =>
      have hgl : eth.compiler.data.getLast? = some ch := by
        rw [← List.head?_reverse, hr]
        rfl
      rcases hlast with hl | ⟨ch2, hc2, hna⟩
      · rw [hgl] at hl
        cases hl
      · rw [hgl] at hc2
        cases Option.some.inj hc2
        simp [List.takeWhile_cons, hna]
  have hc : store.contains (jsToLower a) = false := by simpa using hnot
  have heth2 : fetchAddressEtherscanM { env with compilersMap := cm } (jsToLower a) =
      Except.ok eth := heth
  have hbc2 : (fetchAddressBlockchairM { env with compilersMap := cm } (jsToLower a)).1 =
      Except.ok bc := hbc
  simp only [fetchAddressM, hc, Bool.false_eq_true, if_false, heth2, hbc2, hta]

/-- Environment whose compiler cell ends in an uppercase letter. -/
def envC10 : Env :=
  { envT with ethPage := fun _ => { pgT with compilerText := "v0.4.19+commit.C4CBB" } }

/-- Witness for C10: the compiler string `v0.4.19+commit.C4CBB` ends in
`B`, so ingestion throws the modelled `TypeError` with no save. -/
theorem compiler_regex_typeerror_witness :
    fetchAddressM { envC10 with compilersMap := fun _ => none } svT false [] "0xAB" =
      AddrOut.err (RunError.typeError "Cannot read properties of null (reading 1)") [] := by
  exact compiler_regex_typeerror envC10 [] "0xAB"
    ⟨"Token", "v0.4.19+commit.C4CBB", JsVal.num 200, "contract Token {}", "[]", ""⟩
    ⟨"0xab", "6060"⟩
    (by simp) (by rfl) (by rfl) (Or.inr ⟨'B', by decide, by decide⟩)
    svT (fun _ => none) false

/-- Witness for C8 (amended): under `envT` the flag is `Yes` and the
run count parses to `200`, so the stored `optimise` is the number `200`
and is truthy. -/
theorem optimise_field_witness :
    jsTruthy contractT.info.optimise = true ∧
    jsTrim (envT.ethPage (jsToLower "0xAB")).optimizationEnabledText = "Yes" ∧
    contractT.info.optimise =
      (match parseIntJS (jsTrim (envT.ethPage (jsToLower "0xAB")).optimizationRunsText) with
       | some n => JsVal.num n
       | none => JsVal.nan) := by
  have h := optimise_field envT svT false [] "0xAB" addrResT contractT (by decide) rfl
  refine ⟨?_, by decide, ?_⟩
  · exact (h.1).mpr ⟨by decide, 200, by decide, by decide⟩
  · exact h.2.2 (by decide)

/-! ## Claim C2: crawling with upper bound `latest` -/

theorem fetchPageM_cont_total (env : Env) (sv : String → Option String)
    (update : Bool) (store : List String) (page : Nat)
    (st : List String) (saves : List Contract) (pr : List String) (total : Nat)
    (h : fetchPageM env sv update store page = PageOut.cont st saves pr total) :
    total = env.pageCount page := by
  simp only [fetchPageM] at h
  split at h
  · cases h
    rfl
  · cases h
  · cases h

theorem fetchPagesM_done_latest (env : Env) (sv : String → Option String)
    (update : Bool) :
    ∀ fuel d store store2 saves pv pr,
    fetchPagesM env sv update fuel d none store = CrawlRes.done store2 saves pv pr →
    pv = List.range' d pv.length ∧ 1 ≤ pv.length ∧
    env.pageCount (d + pv.length - 1) ≤ d + pv.length - 1 ∧
    (∀ q, d ≤ q → q + 1 < d + pv.length → q < env.pageCount q) := by
  intro fuel
  induction fuel with
  | zero =>
    intro d store store2 saves pv pr h
    simp [fetchPagesM] at h
  | succ fuel ih =>
    intro d store store2 saves pv pr h
    rw [fetchPagesM] at h
    cases hp : fetchPageM env sv update store d with
    | exit0 s p => rw [hp] at h; cases h
    | failed e s p => rw [hp] at h; cases h
    | cont store' saves' pr' total =>
      rw [hp] at h
      simp only [resolveUp] at h
      have htot : total = env.pageCount d :=
        fetchPageM_cont_total env sv update store d store' saves' pr' total hp
      by_cases hstop : total ≤ d
      · rw [if_pos hstop] at h
        cases h
        refine ⟨by simp, by simp, ?_, ?_⟩
        · simpa using htot ▸ hstop
        · intro q hq1 hq2
          simp at hq2
          omega
      · rw [if_neg hstop] at h
        cases hrec : fetchPagesM env sv update fuel (d + 1) none store' with
        | done st2 s2 pv2 pr2 =>
          rw [hrec] at h
          cases h
          obtain ⟨hpv2, hlen2, hlast2, hmid2⟩ :=
            ih (d + 1) store' store2 s2 pv2 pr2 hrec
          refine ⟨?_, by simp, ?_, ?_⟩
          · show d :: pv2 = List.range' d (d :: pv2).length
            rw [List.length_cons, List.range'_succ]
            exact congrArg (List.cons d) hpv2
          · have harith : d + (d :: pv2).length - 1 = d + 1 + pv2.length - 1 := by
              simp only [List.length_cons]
              omega
            rw [harith]
            exact hlast2
          · intro q hq1 hq2
            rcases Nat.eq_or_lt_of_le hq1 with hq | hq
            · subst hq
              rw [← htot]
              omega
            · apply hmid2 q hq
              simp at hq2
              omega
        | exit0 s2 pv2 pr2 => rw [hrec] at h; cases h
        | failed e s2 pv2 pr2 => rw [hrec] at h; cases h
        | fuelOut => rw [hrec] at h; cases h

/-- Claim C2: whenever a crawl with upper bound `latest` starting at
page `d` runs to completion, the pages fetched are exactly
`d, d + 1, …` consecutively (hence strictly increasing and never
repeated), every non-final page's footer count exceeds its index, and
the final page `p` satisfies `p ≥ pageCount p` (the footer re-read on
every page); in particular with a constant footer count `T ≥ 1` a
crawl from page 1 visits pages `1..T` exactly once each. -/
theorem crawl_latest_pages (env : Env) (sv : String → Option String)
    (update : Bool) (T fuel d : Nat) (store store2 : List String)
    (saves : List Contract) (pv : List Nat) (pr : List String)
    (h : fetchPagesM env sv update fuel d none store = CrawlRes.done store2 saves pv pr) :
    pv = List.range' d pv.length ∧ pv.Nodup ∧ 1 ≤ pv.length ∧
    env.pageCount (d + pv.length - 1) ≤ d + pv.length - 1 ∧
    (∀ q, d ≤ q → q + 1 < d + pv.length → q < env.pageCount q) ∧
    ((∀ p, env.pageCount p = T) → 1 ≤ T → d = 1 → pv = List.range' 1 T) := by
  obtain ⟨hpv, hlen, hlast, hmid⟩ :=
    fetchPagesM_done_latest env sv update fuel d store store2 saves pv pr h
  refine ⟨hpv, ?_, hlen, hlast, hmid, ?_⟩
  · rw [hpv]
    simp [List.nodup_range']
  · intro hconst h1T hd1
    subst hd1
    have hTlast : T ≤ 1 + pv.length - 1 := by
      rw [hconst (1 + pv.length - 1)] at hlast
    
      exact hlast
    have hTn : T = pv.length := by
      by_cases hn1 : pv.length = 1
      · omega
      · have hq := hmid (pv.length - 1) (by omega) (by omega)
        rw [hconst (pv.length - 1)] at hq
        omega
    rw [hpv, hTn]

/-- Environment with empty page listings and a constant footer of 2. -/
def envT2 : Env := { envT with pages := fun _ => [] }

/-- Witness for C2: a crawl from page 1 under a constant footer count
of 2 completes having visited pages `[1, 2] = range' 1 2`, with the
footer exceeding page 1 and met at page 2. -/
theorem crawl_latest_pages_witness :
    fetchPagesM envT2 svT false 5 1 none [] = CrawlRes.done [] [] [1, 2] [] ∧
    [1, 2] = List.range' 1 ([1, 2] : List Nat).length ∧
    ([1, 2] : List Nat).Nodup ∧
    envT2.pageCount (1 + ([1, 2] : List Nat).length - 1) ≤
      1 + ([1, 2] : List Nat).length - 1 ∧
    [1, 2] = List.range' 1 2 := by
  have hdone : fetchPagesM envT2 svT false 5 1 none [] =
      CrawlRes.done [] [] [1, 2] [] := by decide
  have h := crawl_latest_pages envT2 svT false 2 5 1 [] [] [] [1, 2] [] hdone
  exact ⟨hdone, h.1, h.2.1, h.2.2.2.1,
    h.2.2.2.2.2 (fun p => rfl) (by decide) rfl⟩

/-! ## Claim C3: update-mode early stop -/

theorem processAddresses_append (env : Env) (sv : String → Option String)
    (u : Bool) (l1 l2 : List String) :
    ∀ store, processAddresses env sv u store (l1 ++ l2) =
      (match processAddresses env sv u store l1 with
       | AddrLoopOut.cont st s p =>
         (match processAddresses env sv u st l2 with
          | AddrLoopOut.cont st2 s2 p2 => AddrLoopOut.cont st2 (s ++ s2) (p ++ p2)
          | AddrLoopOut.exit0 s2 p2 => AddrLoopOut.exit0 (s ++ s2) (p ++ p2)
          | AddrLoopOut.failed e s2 p2 => AddrLoopOut.failed e (s ++ s2) (p ++ p2))
       | AddrLoopOut.exit0 s p => AddrLoopOut.exit0 s p
       | AddrLoopOut.failed e s p => AddrLoopOut.failed e s p) := by
  induction l1 with
  | nil =>
    intro store
    simp only [List.nil_append, processAddresses]
    cases processAddresses env sv u store l2 <;> simp
  | cons a rest ih =>
    intro store
    simp only [List.cons_append, processAddresses]
    cases fetchAddressM env sv u store a with
    | err e saves => rfl
    | ok r =>
      by_cases ht : r.terminate = true
      · simp [ht]
      · simp only [ht, Bool.false_eq_true, if_false]
        simp only [List.append_eq]
        rw [ih r.store]
        cases hrest : processAddresses env sv u r.store rest with
        | cont st s p =>
          cases hl2 : processAddresses env sv u st l2 <;> simp [hrest, hl2]
        | exit0 s p => simp [hrest]
        | failed e s p => simp [hrest]

/-- Claim C3: in update mode, if the ingestion of address `a` — the
one following the prefix `l1` on the current page — finds it already
present (via the existence check, or via `save` returning false after a
successful reconciliation), the crawl ends immediately: only the
addresses up to and including `a` were ever processed (none of `l2`,
no later page), the only save calls are those recorded up to `a`, and
the run exits successfully with code 0. -/
theorem update_early_stop (env : Env) (sv : String → Option String)
    (store : List String) (fuel page : Nat) (up : Option Nat)
    (l1 : List String) (a : String) (l2 : List String)
    (store1 : List String) (saves1 : List Contract) (pr1 : List String) (r : AddrRes)
    (hpage : (env.pages page).map (fun s => jsToLower (jsTrim s)) = l1 ++ a :: l2)
    (h1 : processAddresses env sv true store l1 = AddrLoopOut.cont store1 saves1 pr1)
    (hfound : jsToLower a ∈ store1 ∨ env.saveAdded (jsToLower a) = false)
    (hok : fetchAddressM env sv true store1 a = AddrOut.ok r) :
    r.terminate = true ∧
    fetchPagesM env sv true (fuel + 1) page up store =
      CrawlRes.exit0 (saves1 ++ r.saves) [page] (pr1 ++ [a]) ∧
    exitCode (fetchPagesM env sv true (fuel + 1) page up store) = 0 := by
  have hterm : r.terminate = true := by
    by_cases hcon : store1.contains (jsToLower a) = true
    · simp only [fetchAddressM, hcon, if_true] at hok
      cases hok
      rfl
    · have hmem : jsToLower a ∉ store1 := by simpa using hcon
      have hsf : env.saveAdded (jsToLower a) = false := by
        rcases hfound with hm | hs
        · exact absurd hm hmem
        · exact hs
      have hcf : store1.contains (jsToLower a) = false := by simpa using hmem
      simp only [fetchAddressM, hcf, Bool.false_eq_true, if_false] at hok
      split at hok
      · cases hok
      · split at hok
        · cases hok
        · split at hok
          · cases hok
          · split at hok
            · cases hok
            · split at hok
              · cases hok
              · simp only [hsf, Bool.not_false, Bool.and_true, if_true] at hok
                cases hok
                rfl
  have hpa : processAddresses env sv true store (l1 ++ a :: l2) =
      AddrLoopOut.exit0 (saves1 ++ r.saves) (pr1 ++ [a]) := by
    rw [processAddresses_append env sv true l1 (a :: l2) store]
    have hone : processAddresses env sv true store1 (a :: l2) =
        AddrLoopOut.exit0 r.saves [a] := by
      simp only [processAddresses, hok, hterm, if_true]
    simp only [h1, hone]
  have hpg : fetchPageM env sv true store page =
      PageOut.exit0 (saves1 ++ r.saves) (pr1 ++ [a]) := by
    simp only [fetchPageM, hpage, hpa]
  refine ⟨hterm, ?_, ?_⟩
  · rw [fetchPagesM]
    simp only [hpg]
  · rw [fetchPagesM]
    simp only [hpg]
    rfl

/-- The record ingested for `0xbb` in the C3 witness. -/
def contractBB : Contract :=
  { src := [("Token.sol", "contract Token {}")]
    abi := "[]"
    bin := "6060"
    info :=
      { name := "Token"
        entrypoint := "Token.sol"
        compiler := "v0.4.19+commit.c4cbbb05"
        optimise := JsVal.num 200
        network := "foundation"
        txid := "0xbb"
        address := "0xbb"
        constructorArgs := "" } }

/-- Witness for C3: `0xaa` is already stored and appears second on
page 1 before `0xcc`; the crawl ingests `0xbb`, hits `0xaa`, and exits
with code 0 having processed neither `0xcc` nor page 2. -/
theorem update_early_stop_witness :
    fetchPagesM envT svT true 3 1 none ["0xaa"] =
      CrawlRes.exit0 ([contractBB] ++ []) [1] (["0xbb"] ++ ["0xaa"]) ∧
    exitCode (fetchPagesM envT svT true 3 1 none ["0xaa"]) = 0 := by
  have h := update_early_stop envT svT ["0xaa"] 2 1 none ["0xbb"] "0xaa" ["0xcc"]
      ["0xbb", "0xaa"] [contractBB] ["0xbb"]
      ⟨true, ["0xbb", "0xaa"], [], Outcome.alreadyExists⟩
      (by decide) (by decide) (Or.inl (by decide)) (by decide)
  exact ⟨h.2.1, h.2.2⟩
